import Mathlib

/-!
Verification of the core algorithmic slice of `aibs-informatics-aws-utils`:
the sync-decision engine (`should_sync`), the multipart-digest calculator
(`get_local_etag` / `determine_chunk_size`), the tree partitioner, the
mtime-refresh pass, and the transient-retry policy around digesting.

Each definition is a shallow embedding of the corresponding Python function
in `src/aibs_informatics_aws_utils`, translated statement by statement.
-/

namespace AibsAwsUtils

/-- Timestamps as produced by `datetime.fromtimestamp(..)` / S3 `last_modified`:
whole seconds plus a microsecond component.  `replace(microsecond=0)` in the
source corresponds to `truncate`. -/
structure Timestamp where
  sec : Int
  usec : Nat
  deriving Repr, DecidableEq

/-- Python `dt.replace(microsecond=0)`. -/
def Timestamp.truncate (t : Timestamp) : Timestamp :=
  { t with usec := 0 }

/-- Ordering on timestamps, lexicographic on (seconds, microseconds), as in
Python `datetime` comparison. -/
def Timestamp.lt (a b : Timestamp) : Bool :=
  decide (a.sec < b.sec) || (decide (a.sec = b.sec) && decide (a.usec < b.usec))

/-- Metadata of a transfer artifact (local file or S3 object) as observed by
`should_sync`: whether it exists (`is_object` for S3, `Path.exists` for local),
its last-modified time, its byte size and its content digest (the S3 `e_tag`
for objects, `get_local_etag` for local files). -/
structure Artifact where
  present : Bool
  mtime : Timestamp
  sizeBytes : Nat
  etag : String
  deriving Repr, DecidableEq

/-- The `Union[Path, S3URI]` argument type of `should_sync`: either an S3 URI
or a local path, each resolving to the artifact metadata behind it. -/
inductive PathOrUri where
  | s3Uri (a : Artifact)
  | localPath (a : Artifact)
  deriving Repr, DecidableEq

/-- The `isinstance` dispatch of `should_sync`: both the S3 branch
(`is_object`/`get_object`) and the local branch (`exists`/`stat`) expose the
same artifact metadata. -/
def PathOrUri.artifact : PathOrUri → Artifact
  | .s3Uri a => a
  | .localPath a => a

/-- Python exceptions relevant to the embedded functions.  `should_sync`
raises `ValueError` on a missing source; `notFoundError` exists solely so the
specification's claimed exception type is statable; `osError` carries an
errno as raised by local file reads. -/
inductive PyErr where
  | valueError (msg : String)
  | notFoundError
  | osError (code : Nat)
  | otherError (name : String)
  deriving Repr, DecidableEq

/-- Observable probes `should_sync` performs, in program order: existence
checks, metadata fetches (`get_object` / `stat`), and lazy digest
computations (`source_hash()` / `dest_hash()`). -/
inductive Probe where
  | destExistence
  | destMetadata
  | srcExistence
  | srcMetadata
  | srcDigest
  | dstDigest
  deriving Repr, DecidableEq

/-- Shallow embedding of `should_sync` (s3.py lines 810-893).  The destination
block runs first: a non-existing destination returns `True` at once.  Then the
source block runs: a non-existing source raises `ValueError`.  Finally the
comparisons: size, last-modified truncated to whole seconds, and (unless
`size_only`) the content digests, computed lazily only when reached.  The
second component records which probes ran, in order. -/
def should_sync (source_path destination_path : PathOrUri) (size_only : Bool) :
    Except PyErr Bool × List Probe :=
  let dst := destination_path.artifact
  if dst.present then
    let src := source_path.artifact
    if src.present then
      let t := [Probe.destExistence, Probe.destMetadata, Probe.srcExistence, Probe.srcMetadata]
      if src.sizeBytes ≠ dst.sizeBytes then
        (Except.ok true, t)
      else if Timestamp.lt dst.mtime.truncate src.mtime.truncate then
        (Except.ok true, t)
      else if size_only = false then
        let t2 := t ++ [Probe.srcDigest, Probe.dstDigest]
        if src.etag ≠ dst.etag then (Except.ok true, t2) else (Except.ok false, t2)
      else
        (Except.ok false, t)
    else
      (Except.error (PyErr.valueError "Cannot transfer, source path does not exist!"),
        [Probe.destExistence, Probe.destMetadata, Probe.srcExistence])
  else
    (Except.ok true, [Probe.destExistence])

/-- Truncating both operands reduces the datetime comparison to the seconds. -/
theorem Timestamp.lt_truncate (a b : Timestamp) :
    Timestamp.lt a.truncate b.truncate = decide (a.sec < b.sec) := by
  simp [Timestamp.lt, Timestamp.truncate]

end AibsAwsUtils

namespace AibsAwsUtils

/-- C1: with an existing source, `should_sync` returns `True` exactly when the
destination does not exist, or the sizes differ, or the source's
seconds-truncated mtime is strictly later, or `size_only` is false and the
digests differ; otherwise it returns `False`. -/
theorem should_sync_decision (source_path destination_path : PathOrUri) (size_only : Bool)
    (h : source_path.artifact.present = true) :
    (should_sync source_path destination_path size_only).1 =
      Except.ok ((!destination_path.artifact.present)
        || decide (source_path.artifact.sizeBytes ≠ destination_path.artifact.sizeBytes)
        || decide (destination_path.artifact.mtime.sec < source_path.artifact.mtime.sec)
        || ((!size_only) && decide (source_path.artifact.etag ≠ destination_path.artifact.etag))) := by
  unfold should_sync
  by_cases hdst : destination_path.artifact.present = true
  · simp only [Timestamp.lt_truncate]
    by_cases hsz : source_path.artifact.sizeBytes = destination_path.artifact.sizeBytes
    · by_cases hmt : destination_path.artifact.mtime.sec < source_path.artifact.mtime.sec
      · simp [hdst, h, hsz, hmt]
      · by_cases hso : size_only
        · simp [hdst, h, hsz, hmt, hso]
        · by_cases het : source_path.artifact.etag = destination_path.artifact.etag
          · simp [hdst, h, hsz, hmt, hso, het]
          · simp [hdst, h, hsz, hmt, hso, het]
    · simp [hdst, h, hsz]
  · simp [Bool.not_eq_true] at hdst
    simp [hdst]

/-- C1 witness: an artifact compared against an identical copy of itself needs
no sync (`should_sync(x, x) = False`). -/
theorem should_sync_decision_witness :
    (PathOrUri.localPath ⟨true, ⟨100, 500⟩, 5, "\"abc\""⟩).artifact.present = true ∧
    (should_sync (PathOrUri.localPath ⟨true, ⟨100, 500⟩, 5, "\"abc\""⟩)
        (PathOrUri.s3Uri ⟨true, ⟨100, 999⟩, 5, "\"abc\""⟩) false).1 =
      Except.ok ((!(PathOrUri.s3Uri ⟨true, ⟨100, 999⟩, 5, "\"abc\""⟩).artifact.present)
        || decide ((PathOrUri.localPath ⟨true, ⟨100, 500⟩, 5, "\"abc\""⟩).artifact.sizeBytes ≠
            (PathOrUri.s3Uri ⟨true, ⟨100, 999⟩, 5, "\"abc\""⟩).artifact.sizeBytes)
        || decide ((PathOrUri.s3Uri ⟨true, ⟨100, 999⟩, 5, "\"abc\""⟩).artifact.mtime.sec <
            (PathOrUri.localPath ⟨true, ⟨100, 500⟩, 5, "\"abc\""⟩).artifact.mtime.sec)
        || ((!false) && decide ((PathOrUri.localPath ⟨true, ⟨100, 500⟩, 5, "\"abc\""⟩).artifact.etag ≠
            (PathOrUri.s3Uri ⟨true, ⟨100, 999⟩, 5, "\"abc\""⟩).artifact.etag))) :=
  ⟨rfl, should_sync_decision _ _ false rfl⟩

/-- C9: when the destination does not exist, `should_sync` returns `True`
immediately after the destination existence check: the source is never probed,
no digest is computed, and no exception is raised even if the source is also
missing. -/
theorem should_sync_missing_destination (source_path destination_path : PathOrUri)
    (size_only : Bool) (h : destination_path.artifact.present = false) :
    should_sync source_path destination_path size_only =
      (Except.ok true, [Probe.destExistence]) := by
  unfold should_sync
  simp [h]

/-- C9 witness: destination missing and source missing as well — still returns
`True` with only the destination existence probe. -/
theorem should_sync_missing_destination_witness :
    (PathOrUri.s3Uri ⟨false, ⟨0, 0⟩, 0, ""⟩).artifact.present = false ∧
    should_sync (PathOrUri.localPath ⟨false, ⟨0, 0⟩, 0, ""⟩)
        (PathOrUri.s3Uri ⟨false, ⟨0, 0⟩, 0, ""⟩) false =
      (Except.ok true, [Probe.destExistence]) :=
  ⟨rfl, should_sync_missing_destination _ _ false rfl⟩

/-- C4 counterexample: with a missing source AND a missing destination the
call does not raise at all — it returns the boolean `True` (the destination
check runs first), contradicting "the failure is unconditional … regardless of
the destination argument"; moreover the code raises `ValueError`, not a
`NotFoundError`. -/
theorem should_sync_missing_source_counterexample :
    (should_sync (PathOrUri.localPath ⟨false, ⟨0, 0⟩, 0, ""⟩)
        (PathOrUri.localPath ⟨false, ⟨0, 0⟩, 0, ""⟩) false).1 = Except.ok true ∧
    ∀ e : PyErr, (should_sync (PathOrUri.localPath ⟨false, ⟨0, 0⟩, 0, ""⟩)
        (PathOrUri.localPath ⟨false, ⟨0, 0⟩, 0, ""⟩) false).1 ≠ Except.error e := by
  constructor
  · rfl
  · intro e hcontra
    simp [should_sync, PathOrUri.artifact] at hcontra

/-- C4 amended: when the destination exists and the source does not,
`should_sync` raises `ValueError` (not a `NotFoundError`), unconditionally for
that call and without retry; when the destination is also missing the call
instead returns `True` without examining the source. -/
theorem should_sync_missing_source (source_path destination_path : PathOrUri)
    (size_only : Bool) (hs : source_path.artifact.present = false)
    (hd : destination_path.artifact.present = true) :
    (should_sync source_path destination_path size_only).1 =
      Except.error (PyErr.valueError "Cannot transfer, source path does not exist!") := by
  unfold should_sync
  simp [hs, hd]

/-- C4 amended witness: missing S3 source, existing local destination. -/
theorem should_sync_missing_source_witness :
    (PathOrUri.s3Uri ⟨false, ⟨0, 0⟩, 0, ""⟩).artifact.present = false ∧
    (PathOrUri.localPath ⟨true, ⟨7, 0⟩, 5, "\"x\""⟩).artifact.present = true ∧
    (should_sync (PathOrUri.s3Uri ⟨false, ⟨0, 0⟩, 0, ""⟩)
        (PathOrUri.localPath ⟨true, ⟨7, 0⟩, 5, "\"x\""⟩) true).1 =
      Except.error (PyErr.valueError "Cannot transfer, source path does not exist!") :=
  ⟨rfl, rfl, should_sync_missing_source _ _ true rfl rfl⟩

end AibsAwsUtils

namespace AibsAwsUtils

/-- Concatenation of a list of byte strings, as in Python `b"".join(...)`. -/
def concatAll {α : Type} : List (List α) → List α
  | [] => []
  | l :: ls => l ++ concatAll ls

/-- The chunk-reading loop of `get_local_etag`: `fp.read(chunk_size_bytes)`
until an empty read.  A read of zero bytes returns empty data at once, so a
zero chunk size yields no chunks. -/
def readChunks (chunk_size_bytes : Nat) : List Nat → List (List Nat)
  | [] => []
  | b :: rest =>
    if h : chunk_size_bytes = 0 then []
    else
      (b :: rest).take chunk_size_bytes ::
        readChunks chunk_size_bytes ((b :: rest).drop chunk_size_bytes)
  termination_by content => content.length
  decreasing_by
    simp only [List.length_drop, List.length_cons]
    omega

/-- Hex digit for a value below 16, as produced by `hexdigest`. -/
def hexChar (n : Nat) : Char :=
  if n < 10 then Char.ofNat (48 + n) else Char.ofNat (87 + n)

/-- Two lowercase hex digits of one byte. -/
def hexByte (b : Nat) : String :=
  String.mk [hexChar (b / 16 % 16), hexChar (b % 16)]

/-- Python `hashlib`'s `hexdigest()`: the hex encoding of the binary digest. -/
def hexOfBytes (bs : List Nat) : String :=
  String.join (bs.map hexByte)

/-- `AWS_S3_MULTIPART_LIMIT` (s3.py line 86). -/
def AWS_S3_MULTIPART_LIMIT : Nat := 10000

/-- `math.ceil(file_size / chunk)` for a positive chunk, in exact integer
arithmetic. -/
def chunkCount (file_size chunk : Nat) : Nat :=
  (file_size + chunk - 1) / chunk

/-- The doubling loop of `determine_chunk_size`: while the implied chunk count
exceeds `AWS_S3_MULTIPART_LIMIT`, double the chunk size. -/
def determine_chunk_size_go (file_size : Nat) (chunk : Nat) : Nat :=
  if h : AWS_S3_MULTIPART_LIMIT < chunkCount file_size chunk then
    determine_chunk_size_go file_size (chunk * 2)
  else
    chunk
  termination_by file_size / chunk
  decreasing_by
    have hc : chunk ≠ 0 := by
      intro hz
      rw [hz] at h
      simp [chunkCount, AWS_S3_MULTIPART_LIMIT] at h
    have hfs : 10000 * chunk < file_size := by
      have h1 : 10001 ≤ (file_size + chunk - 1) / chunk := by
        simpa [chunkCount, AWS_S3_MULTIPART_LIMIT] using h
      have h2 : 10001 * chunk ≤ file_size + chunk - 1 :=
        (Nat.le_div_iff_mul_le (Nat.pos_of_ne_zero hc)).mp h1
      omega
    have hdd : file_size / (chunk * 2) = file_size / chunk / 2 := by
      rw [Nat.div_div_eq_div_mul]
    rw [hdd]
    have hpos : 0 < file_size / chunk := by
      apply Nat.div_pos _ (Nat.pos_of_ne_zero hc)
      omega
    exact Nat.div_lt_self hpos (by omega)

/-- `determine_chunk_size` (s3.py lines 1031-1037) at the default baseline of
8 MiB, applied to the file's size in bytes. -/
def determine_chunk_size (file_size : Nat) : Nat :=
  determine_chunk_size_go file_size 8388608

/-- `get_local_etag` (s3.py lines 1040-1076), abstracted over the `md5`
digest function (bytes to 16-byte binary digest): hash each chunk; with more
than one chunk, hash the concatenation of the binary chunk digests and append
`-<count>`; with one chunk, its hex digest alone; with none (empty file), the
hex digest of empty input — each enclosed in double quotes. -/
def get_local_etag (md5 : List Nat → List Nat) (content : List Nat)
    (chunk_size_bytes : Nat) : String :=
  let md5s := (readChunks chunk_size_bytes content).map md5
  if 1 < md5s.length then
    let digests := concatAll md5s
    "\"" ++ hexOfBytes (md5 digests) ++ "-" ++ toString md5s.length ++ "\""
  else if md5s.length = 1 then
    "\"" ++ hexOfBytes (md5s.headD []) ++ "\""
  else
    "\"" ++ hexOfBytes (md5 []) ++ "\""

end AibsAwsUtils

namespace AibsAwsUtils

/-- C2: the computed multipart digest is, with more than one chunk, the quoted
hex hash of the concatenated raw per-chunk hashes with a `-<count>` suffix;
with exactly one chunk, the quoted hex hash of that chunk with no suffix; and
for an empty file, the quoted hash of empty content. -/
theorem get_local_etag_format (md5 : List Nat → List Nat) (content : List Nat) (sz : Nat) :
    (1 < (readChunks sz content).length →
      get_local_etag md5 content sz =
        "\"" ++ hexOfBytes (md5 (concatAll ((readChunks sz content).map md5))) ++ "-" ++
          toString (readChunks sz content).length ++ "\"") ∧
    ((readChunks sz content).length = 1 →
      get_local_etag md5 content sz =
        "\"" ++ hexOfBytes (md5 ((readChunks sz content).headD [])) ++ "\"") ∧
    (content = [] →
      get_local_etag md5 content sz = "\"" ++ hexOfBytes (md5 []) ++ "\"") := by
  refine ⟨?_, ?_, ?_⟩
  · intro h
    unfold get_local_etag
    simp only [List.length_map]
    rw [if_pos h]
  · intro h
    unfold get_local_etag
    simp only [List.length_map]
    rw [if_neg (by omega), if_pos h]
    match hcs : readChunks sz content with
    | [c] => simp
    | [] => rw [hcs] at h; simp at h
    | a :: b :: t => rw [hcs] at h; simp at h
  · intro h
    subst h
    unfold get_local_etag
    simp [readChunks]

/-- A toy stand-in digest used only to evaluate the formatting theorems on a
concrete input. -/
def testDigest (bs : List Nat) : List Nat :=
  [bs.foldr (· + ·) 0 % 256]

/-- C2 witness: content `[1, 2, 3]` at chunk size 2 yields two chunks and the
`-2`-suffixed combined digest. -/
theorem get_local_etag_format_witness :
    1 < (readChunks 2 [1, 2, 3]).length ∧
    get_local_etag testDigest [1, 2, 3] 2 =
      "\"" ++ hexOfBytes (testDigest (concatAll ((readChunks 2 [1, 2, 3]).map testDigest))) ++
        "-" ++ toString (readChunks 2 [1, 2, 3]).length ++ "\"" :=
  ⟨by simp [readChunks], (get_local_etag_format testDigest [1, 2, 3] 2).1 (by simp [readChunks])⟩

/-- Characterization of the doubling loop: it returns the starting chunk size
times the least power of two bringing the implied chunk count within the
multipart limit. -/
theorem determine_chunk_size_go_spec (file_size : Nat) :
    ∀ c, 0 < c → ∃ k, determine_chunk_size_go file_size c = c * 2 ^ k ∧
      chunkCount file_size (c * 2 ^ k) ≤ AWS_S3_MULTIPART_LIMIT ∧
      ∀ j < k, AWS_S3_MULTIPART_LIMIT < chunkCount file_size (c * 2 ^ j) := by
  intro c
  induction c using determine_chunk_size_go.induct file_size with
  | case1 c hcond ih =>
    intro hc
    obtain ⟨k, hk1, hk2, hk3⟩ := ih (by omega)
    refine ⟨k + 1, ?_, ?_, ?_⟩
    · rw [determine_chunk_size_go, dif_pos hcond, hk1]
      ring
    · have hpow : c * 2 ^ (k + 1) = c * 2 * 2 ^ k := by ring
      rw [hpow]
      exact hk2
    · intro j hj
      match j with
      | 0 => simpa using hcond
      | j' + 1 =>
        have hpow : c * 2 ^ (j' + 1) = c * 2 * 2 ^ j' := by ring
        rw [hpow]
        exact hk3 j' (by omega)
  | case2 c hcond =>
    intro hc
    refine ⟨0, ?_, ?_, ?_⟩
    · rw [determine_chunk_size_go, dif_neg hcond]
      ring
    · simpa using Nat.le_of_not_lt hcond
    · intro j hj
      omega

/-- C3: the chunk size chosen by `determine_chunk_size` is obtained from the
8 MiB baseline by doubling exactly until the implied chunk count is within
10,000, and is therefore the smallest power-of-two multiple of 8 MiB whose
implied chunk count is at most 10,000. -/
theorem determine_chunk_size_spec (file_size : Nat) :
    ∃ k, determine_chunk_size file_size = 8388608 * 2 ^ k ∧
      chunkCount file_size (determine_chunk_size file_size) ≤ AWS_S3_MULTIPART_LIMIT ∧
      (∀ j < k, AWS_S3_MULTIPART_LIMIT < chunkCount file_size (8388608 * 2 ^ j)) ∧
      (∀ j : Nat, chunkCount file_size (8388608 * 2 ^ j) ≤ AWS_S3_MULTIPART_LIMIT →
        determine_chunk_size file_size ≤ 8388608 * 2 ^ j) := by
  obtain ⟨k, hk1, hk2, hk3⟩ := determine_chunk_size_go_spec file_size 8388608 (by omega)
  refine ⟨k, hk1, ?_, hk3, ?_⟩
  · rw [determine_chunk_size, hk1]
    exact hk2
  · intro j hj
    have hkj : k ≤ j := by
      by_contra hlt
      exact absurd hj (Nat.not_le_of_lt (hk3 j (by omega)))
    rw [determine_chunk_size, hk1]
    exact Nat.mul_le_mul_left _ (Nat.pow_le_pow_right (by omega) hkj)

end AibsAwsUtils

namespace AibsAwsUtils

/-- Modelled from the spec: the Tree Node of the partitioning engine
(`aibs_informatics_aws_utils.data_sync.file_system`, absent from the sources;
only its tests are present).  A node is either a leaf — one addressable
file/object with its measured byte size — or a directory/prefix whose
aggregate size and object count roll up from its children. -/
inductive TreeNode where
  | leaf (path : String) (size : Nat)
  | dir (path : String) (children : List TreeNode)

mutual
/-- Aggregate `size_bytes` of a subtree: a leaf's measured size, or the sum
over a directory's children. -/
def TreeNode.sizeBytes : TreeNode → Nat
  | .leaf _ s => s
  | .dir _ cs => TreeNode.sizeBytesList cs

/-- Sum of `size_bytes` over a list of sibling nodes. -/
def TreeNode.sizeBytesList : List TreeNode → Nat
  | [] => 0
  | c :: cs => c.sizeBytes + TreeNode.sizeBytesList cs
end

mutual
/-- Aggregate `object_count` of a subtree: 1 for a leaf, or the sum over a
directory's children. -/
def TreeNode.objectCount : TreeNode → Nat
  | .leaf _ _ => 1
  | .dir _ cs => TreeNode.objectCountList cs

/-- Sum of `object_count` over a list of sibling nodes. -/
def TreeNode.objectCountList : List TreeNode → Nat
  | [] => 0
  | c :: cs => c.objectCount + TreeNode.objectCountList cs
end

mutual
/-- The leaf set of a subtree, as (path, size) pairs in traversal order. -/
def TreeNode.leaves : TreeNode → List (String × Nat)
  | .leaf p s => [(p, s)]
  | .dir _ cs => TreeNode.leavesList cs

/-- Concatenated leaf sets of a list of sibling nodes. -/
def TreeNode.leavesList : List TreeNode → List (String × Nat)
  | [] => []
  | c :: cs => c.leaves ++ TreeNode.leavesList cs
end

/-- Whether the node is a bare leaf. -/
def TreeNode.isLeafNode : TreeNode → Bool
  | .leaf _ _ => true
  | .dir _ _ => false

/-- Modelled from the spec: a node is compliant if its aggregate size is
within `size_bytes_limit` (or that limit is `None`) and its object count is
within `object_count_limit` (or that limit is `None`). -/
def TreeNode.compliant (szLim cntLim : Option Nat) (n : TreeNode) : Bool :=
  (match szLim with
   | none => true
   | some l => decide (n.sizeBytes ≤ l)) &&
  (match cntLim with
   | none => true
   | some l => decide (n.objectCount ≤ l))

mutual
/-- Modelled from the spec: `partition` — depth-first descent; emit the
current node if it is compliant or a bare leaf (an oversized leaf is logged
but accepted as-is), otherwise recurse into the children and union the
results. -/
def TreeNode.partition (szLim cntLim : Option Nat) : TreeNode → List TreeNode
  | .leaf p s => [.leaf p s]
  | .dir p cs =>
    if TreeNode.compliant szLim cntLim (.dir p cs) then [.dir p cs]
    else TreeNode.partitionList szLim cntLim cs

/-- Union of the partitions of a list of sibling nodes. -/
def TreeNode.partitionList (szLim cntLim : Option Nat) : List TreeNode → List TreeNode
  | [] => []
  | c :: cs => TreeNode.partition szLim cntLim c ++ TreeNode.partitionList szLim cntLim cs
end

/-- Tree induction with the hypotheses available for every child of a
directory node. -/
theorem TreeNode.inductionOn (P : TreeNode → Prop)
    (hleaf : ∀ p s, P (.leaf p s))
    (hdir : ∀ p cs, (∀ c ∈ cs, P c) → P (.dir p cs)) :
    ∀ t, P t
  | .leaf p s => hleaf p s
  | .dir p cs => hdir p cs (fun c hc =>
      have : sizeOf c < sizeOf (TreeNode.dir p cs) := by
        have hlt := List.sizeOf_lt_of_mem hc
        simp only [TreeNode.dir.sizeOf_spec]
        omega
      TreeNode.inductionOn P hleaf hdir c)
  termination_by t => sizeOf t

/-- Leaf sets distribute over list concatenation. -/
theorem TreeNode.leavesList_append (xs ys : List TreeNode) :
    TreeNode.leavesList (xs ++ ys) = TreeNode.leavesList xs ++ TreeNode.leavesList ys := by
  induction xs with
  | nil => simp [TreeNode.leavesList]
  | cons c cs ih => simp [TreeNode.leavesList, ih]

end AibsAwsUtils

namespace AibsAwsUtils

/-- The union of the children's partitions keeps exactly the children's
leaves, provided each child's partition does. -/
theorem TreeNode.leavesList_partitionList (szLim cntLim : Option Nat)
    (cs : List TreeNode)
    (ih : ∀ c ∈ cs, TreeNode.leavesList (TreeNode.partition szLim cntLim c) = c.leaves) :
    TreeNode.leavesList (TreeNode.partitionList szLim cntLim cs) =
      TreeNode.leavesList cs := by
  induction cs with
  | nil => rfl
  | cons c cs' ihl =>
    rw [TreeNode.partitionList, TreeNode.leavesList_append,
      ih c (List.mem_cons_self c cs'),
      ihl (fun c' hc' => ih c' (List.mem_cons_of_mem c hc'))]
    rfl

/-- C5: the nodes returned by `partition` cover every leaf of the original
tree exactly once — the concatenated leaf sets of the selected nodes are the
leaf set of the root, so the selected subtrees are pairwise disjoint and leave
no gap, for every tree and every combination of limits. -/
theorem partition_covers_leaves (szLim cntLim : Option Nat) (t : TreeNode) :
    TreeNode.leavesList (TreeNode.partition szLim cntLim t) = t.leaves := by
  induction t using TreeNode.inductionOn with
  | hleaf p s => simp [TreeNode.partition, TreeNode.leavesList, TreeNode.leaves]
  | hdir p cs ih =>
    by_cases hcomp : TreeNode.compliant szLim cntLim (.dir p cs) = true
    · simp [TreeNode.partition, hcomp, TreeNode.leavesList, TreeNode.leaves]
    · rw [TreeNode.partition, if_neg hcomp]
      exact (TreeNode.leavesList_partitionList szLim cntLim cs ih).trans rfl

/-- C6: if the root is compliant — and in particular whenever both limits are
`None` — `partition` returns exactly the singleton root, however tight the
limits would be further down. -/
theorem partition_compliant_root (szLim cntLim : Option Nat) (t : TreeNode) :
    (TreeNode.compliant szLim cntLim t = true →
      TreeNode.partition szLim cntLim t = [t]) ∧
    TreeNode.partition none none t = [t] := by
  have hnone : ∀ n : TreeNode, TreeNode.compliant none none n = true := by
    intro n
    rfl
  have hmain : ∀ (a b : Option Nat), TreeNode.compliant a b t = true →
      TreeNode.partition a b t = [t] := by
    intro a b hcomp
    match t with
    | .leaf p s => rfl
    | .dir p cs => rw [TreeNode.partition, if_pos hcomp]
  exact ⟨hmain szLim cntLim, hmain none none (hnone t)⟩

/-- C6 witness: a two-level tree within both limits partitions to its root,
and with no limits at all the result is again the singleton root. -/
theorem partition_compliant_root_witness :
    TreeNode.compliant (some 10) (some 10) (.dir "A" [.leaf "A/X" 3, .leaf "A/Y" 4]) = true ∧
    TreeNode.partition (some 10) (some 10) (.dir "A" [.leaf "A/X" 3, .leaf "A/Y" 4]) =
      [.dir "A" [.leaf "A/X" 3, .leaf "A/Y" 4]] ∧
    TreeNode.partition none none (.dir "A" [.leaf "A/X" 3, .leaf "A/Y" 4]) =
      [.dir "A" [.leaf "A/X" 3, .leaf "A/Y" 4]] :=
  ⟨rfl,
    (partition_compliant_root (some 10) (some 10)
      (.dir "A" [.leaf "A/X" 3, .leaf "A/Y" 4])).1 rfl,
    (partition_compliant_root (some 10) (some 10)
      (.dir "A" [.leaf "A/X" 3, .leaf "A/Y" 4])).2⟩

/-- A member of a sibling list contributes at most the list's aggregate size
and count. -/
theorem TreeNode.le_aggregates_of_mem {c : TreeNode} {cs : List TreeNode} (hc : c ∈ cs) :
    c.sizeBytes ≤ TreeNode.sizeBytesList cs ∧
    c.objectCount ≤ TreeNode.objectCountList cs := by
  induction cs with
  | nil => cases hc
  | cons d ds ih =>
    rw [TreeNode.sizeBytesList, TreeNode.objectCountList]
    rcases List.mem_cons.mp hc with heq | hmem
    · subst heq
      omega
    · have := ih hmem
      omega

/-- A leaf of the list of siblings is a leaf of one of them. -/
theorem TreeNode.mem_leavesList_elim {p : String} {s : Nat} {cs : List TreeNode}
    (h : (p, s) ∈ TreeNode.leavesList cs) :
    ∃ c ∈ cs, (p, s) ∈ c.leaves := by
  induction cs with
  | nil => cases h
  | cons d ds ih =>
    rw [TreeNode.leavesList] at h
    rcases List.mem_append.mp h with hd | hds
    · exact ⟨d, List.mem_cons_self d ds, hd⟩
    · obtain ⟨c, hc1, hc2⟩ := ih hds
      exact ⟨c, List.mem_cons_of_mem d hc1, hc2⟩

/-- The measured size of any leaf is bounded by the subtree's aggregate size,
and the subtree holding a leaf counts at least one object. -/
theorem TreeNode.leaf_le_aggregates {p : String} {s : Nat} (t : TreeNode)
    (h : (p, s) ∈ t.leaves) :
    s ≤ t.sizeBytes ∧ 1 ≤ t.objectCount := by
  induction t using TreeNode.inductionOn with
  | hleaf q s' =>
    rw [TreeNode.leaves] at h
    rcases List.mem_singleton.mp h with heq
    cases heq
    exact ⟨Nat.le_refl _, Nat.le_refl _⟩
  | hdir q cs ih =>
    rw [TreeNode.leaves] at h
    obtain ⟨c, hc1, hc2⟩ := TreeNode.mem_leavesList_elim h
    have hrec := ih c hc1 hc2
    have hagg := TreeNode.le_aggregates_of_mem hc1
    rw [TreeNode.sizeBytes, TreeNode.objectCount]
    omega

/-- Compliance is antitone in the aggregates: a node no larger and no more
populated than a compliant node is itself compliant. -/
theorem TreeNode.compliant_mono {szLim cntLim : Option Nat} {a b : TreeNode}
    (hs : a.sizeBytes ≤ b.sizeBytes) (hc : a.objectCount ≤ b.objectCount)
    (h : TreeNode.compliant szLim cntLim b = true) :
    TreeNode.compliant szLim cntLim a = true := by
  unfold TreeNode.compliant at h ⊢
  cases szLim <;> cases cntLim <;> simp_all <;> omega

/-- A compliant subtree has only compliant leaves. -/
theorem TreeNode.compliant_leaf_of_compliant {szLim cntLim : Option Nat} {p : String}
    {s : Nat} {t : TreeNode} (hcomp : TreeNode.compliant szLim cntLim t = true)
    (h : (p, s) ∈ t.leaves) :
    TreeNode.compliant szLim cntLim (.leaf p s) = true := by
  obtain ⟨hsz, hcnt⟩ := TreeNode.leaf_le_aggregates t h
  exact TreeNode.compliant_mono hsz hcnt hcomp

/-- Membership in the union of the children's partitions, both directions. -/
theorem TreeNode.mem_partitionList {szLim cntLim : Option Nat} {n : TreeNode}
    {cs : List TreeNode} :
    n ∈ TreeNode.partitionList szLim cntLim cs ↔
      ∃ c ∈ cs, n ∈ TreeNode.partition szLim cntLim c := by
  induction cs with
  | nil =>
    rw [TreeNode.partitionList]
    simp
  | cons d ds ih =>
    rw [TreeNode.partitionList]
    simp only [List.mem_append, ih, List.mem_cons]
    constructor
    · rintro (hd | ⟨c, hc1, hc2⟩)
      · exact ⟨d, Or.inl rfl, hd⟩
      · exact ⟨c, Or.inr hc1, hc2⟩
    · rintro ⟨c, hc1 | hc1, hc2⟩
      · subst hc1
        exact Or.inl hc2
      · exact Or.inr ⟨c, hc1, hc2⟩

end AibsAwsUtils

namespace AibsAwsUtils

/-- C7: an oversized leaf is accepted silently — any leaf of the tree that
itself violates the limits is still a member of the partition result (no
error is possible: `partition` is total) — while every selected node that is
not a bare leaf satisfies both limits. -/
theorem partition_oversized_leaf (szLim cntLim : Option Nat) (t : TreeNode) :
    (∀ p s, (p, s) ∈ t.leaves →
        TreeNode.compliant szLim cntLim (.leaf p s) = false →
        TreeNode.leaf p s ∈ TreeNode.partition szLim cntLim t) ∧
    (∀ n ∈ TreeNode.partition szLim cntLim t,
        TreeNode.isLeafNode n = false → TreeNode.compliant szLim cntLim n = true) := by
  induction t using TreeNode.inductionOn with
  | hleaf q s' =>
    constructor
    · intro p s hmem hnc
      rw [TreeNode.leaves] at hmem
      have heq := List.mem_singleton.mp hmem
      cases heq
      rw [TreeNode.partition]
      exact List.mem_singleton.mpr rfl
    · intro n hn hleafn
      rw [TreeNode.partition] at hn
      have heq := List.mem_singleton.mp hn
      subst heq
      simp [TreeNode.isLeafNode] at hleafn
  | hdir q cs ih =>
    by_cases hcomp : TreeNode.compliant szLim cntLim (.dir q cs) = true
    · constructor
      · intro p s hmem hnc
        exact absurd (TreeNode.compliant_leaf_of_compliant hcomp hmem) (by simp [hnc])
      · intro n hn hleafn
        rw [TreeNode.partition, if_pos hcomp] at hn
        have heq := List.mem_singleton.mp hn
        subst heq
        exact hcomp
    · constructor
      · intro p s hmem hnc
        rw [TreeNode.partition, if_neg hcomp]
        rw [TreeNode.leaves] at hmem
        obtain ⟨c, hc1, hc2⟩ := TreeNode.mem_leavesList_elim hmem
        exact TreeNode.mem_partitionList.mpr ⟨c, hc1, (ih c hc1).1 p s hc2 hnc⟩
      · intro n hn hleafn
        rw [TreeNode.partition, if_neg hcomp] at hn
        obtain ⟨c, hc1, hc2⟩ := TreeNode.mem_partitionList.mp hn
        exact (ih c hc1).2 n hc2 hleafn

/-- C7 witness: the oversized-leaf scenario of the partition tests — file
`A/X` of 5 bytes under a 4-byte limit stays in the partition as-is. -/
theorem partition_oversized_leaf_witness :
    ("A/X", 5) ∈ (TreeNode.dir "A" [.leaf "A/X" 5,
        .dir "A/B" [.leaf "A/B/X" 2, .leaf "A/B/Y" 2]]).leaves ∧
    TreeNode.compliant (some 4) none (.leaf "A/X" 5) = false ∧
    TreeNode.leaf "A/X" 5 ∈ TreeNode.partition (some 4) none
      (TreeNode.dir "A" [.leaf "A/X" 5, .dir "A/B" [.leaf "A/B/X" 2, .leaf "A/B/Y" 2]]) :=
  ⟨by decide, by decide,
    (partition_oversized_leaf (some 4) none
        (TreeNode.dir "A" [.leaf "A/X" 5,
          .dir "A/B" [.leaf "A/B/X" 2, .leaf "A/B/Y" 2]])).1
      "A/X" 5 (by decide) (by decide)⟩

end AibsAwsUtils

namespace AibsAwsUtils

/-- Stat data of one regular file as touched by `refresh_local_path__mtime`:
modification time, access time (both in seconds as reported by `os.stat`) and
the file's contents. -/
structure FileStat where
  mtime : Int
  atime : Int
  contents : List Nat
  deriving Repr, DecidableEq

/-- The per-file body of `refresh_local_path__mtime` (operations.py lines
255-258): stat the file; if its mtime is below `min_mtime`, call
`os.utime(path, times=(st_atime, min_mtime))` — keeping the access time and
raising the mtime — otherwise leave the file untouched. -/
def refresh_file (min_mtime : Int) (st : FileStat) : FileStat :=
  if st.mtime < min_mtime then ⟨min_mtime, st.atime, st.contents⟩ else st

/-- `refresh_local_path__mtime` (operations.py lines 253-258): iterate over
every regular file under the path (`find_all_paths(include_dirs=False,
include_files=True)`) and refresh each one's mtime. -/
def refresh_local_path__mtime (min_mtime : Int) (files : List (String × FileStat)) :
    List (String × FileStat) :=
  files.map (fun f => (f.1, refresh_file min_mtime f.2))

/-- C10: after the refresh, the file list has the same length and paths; the
file at each position has mtime equal to the max of its prior mtime and
`min_mtime`, with access time and contents unchanged; and a file whose mtime
was already at least `min_mtime` is left entirely untouched. -/
theorem refresh_local_path_mtime_spec (min_mtime : Int) (files : List (String × FileStat))
    (path : String) (st : FileStat) (i : Nat)
    (h : files[i]? = some (path, st)) :
    (refresh_local_path__mtime min_mtime files).length = files.length ∧
    (min_mtime ≤ st.mtime →
      (refresh_local_path__mtime min_mtime files)[i]? = some (path, st)) ∧
    ∃ st' : FileStat,
      (refresh_local_path__mtime min_mtime files)[i]? = some (path, st') ∧
      st'.mtime = max st.mtime min_mtime ∧
      st'.atime = st.atime ∧
      st'.contents = st.contents := by
  have hmap : (refresh_local_path__mtime min_mtime files)[i]? =
      some (path, refresh_file min_mtime st) := by
    rw [refresh_local_path__mtime, List.getElem?_map, h]
    rfl
  refine ⟨by rw [refresh_local_path__mtime, List.length_map], ?_, ?_⟩
  · intro hle
    rw [hmap, refresh_file, if_neg (by omega)]
  · refine ⟨refresh_file min_mtime st, hmap, ?_, ?_, ?_⟩ <;>
      (rw [refresh_file]; by_cases hlt : st.mtime < min_mtime)
    · rw [if_pos hlt]
      simp
      omega
    · rw [if_neg hlt]
      omega
    · rw [if_pos hlt]
    · rw [if_neg hlt]
    · rw [if_pos hlt]
    · rw [if_neg hlt]

/-- C10 witness: two files, one stale (mtime 3) and one fresh (mtime 9), at
`min_mtime = 7`; checks the untouched-file case at position 1. -/
theorem refresh_local_path_mtime_spec_witness :
    [("a", (⟨3, 11, [1]⟩ : FileStat)), ("b", ⟨9, 12, [2]⟩)][1]? = some ("b", ⟨9, 12, [2]⟩) ∧
    ((refresh_local_path__mtime 7
        [("a", ⟨3, 11, [1]⟩), ("b", ⟨9, 12, [2]⟩)]).length =
      ([("a", (⟨3, 11, [1]⟩ : FileStat)), ("b", ⟨9, 12, [2]⟩)]).length ∧
    ((7 : Int) ≤ (9 : Int) →
      (refresh_local_path__mtime 7 [("a", ⟨3, 11, [1]⟩), ("b", ⟨9, 12, [2]⟩)])[1]? =
        some ("b", ⟨9, 12, [2]⟩)) ∧
    ∃ st' : FileStat,
      (refresh_local_path__mtime 7 [("a", ⟨3, 11, [1]⟩), ("b", ⟨9, 12, [2]⟩)])[1]? =
        some ("b", st') ∧
      st'.mtime = max (9 : Int) 7 ∧
      st'.atime = 12 ∧
      st'.contents = [2]) :=
  ⟨rfl, refresh_local_path_mtime_spec 7 [("a", ⟨3, 11, [1]⟩), ("b", ⟨9, 12, [2]⟩)] "b"
    ⟨9, 12, [2]⟩ 1 rfl⟩

end AibsAwsUtils

namespace AibsAwsUtils

/-- Whether a raised error is an `OSError` — the class named by the
`@retry(OSError)` decorator on `get_local_etag`. -/
def PyErr.isOSError : PyErr → Bool
  | .osError _ => true
  | _ => false

/-- Modelled from the spec: the bounded-attempts retry policy of the
`@retry(OSError)` decorator on `get_local_etag` (s3.py line 1040; the
decorator itself lives in the external `aibs_informatics_core` package, not
in this repository's sources).  `run i` is the outcome of the i-th attempt:
an `ok` result is returned at once; a retryable error consumes one of the
remaining `tries` and runs the next attempt; any other error propagates
immediately. -/
def retryCall {α : Type} (retryable : PyErr → Bool) :
    (tries : Nat) → (run : Nat → Except PyErr α) → (attempt : Nat) → Except PyErr α
  | 0, run, i => run i
  | n + 1, run, i =>
    match run i with
    | .ok a => .ok a
    | .error e => if retryable e then retryCall retryable n run (i + 1) else .error e

/-- The decorated `get_local_etag`: each attempt reads the file (which may
fail with an `OSError` such as transient file-descriptor exhaustion) and
digests the content read. -/
def get_local_etag_retried (md5 : List Nat → List Nat) (tries : Nat)
    (readAttempt : Nat → Except PyErr (List Nat)) (chunk_size_bytes : Nat) :
    Except PyErr String :=
  retryCall PyErr.isOSError tries
    (fun i => (readAttempt i).map (fun content => get_local_etag md5 content chunk_size_bytes)) 0

/-- An attempt that succeeds ends the retry loop with its value. -/
theorem retryCall_ok {α : Type} (retryable : PyErr → Bool) (tries : Nat)
    (run : Nat → Except PyErr α) (i : Nat) (a : α) (h : run i = Except.ok a) :
    retryCall retryable tries run i = Except.ok a := by
  match tries with
  | 0 => rw [retryCall, h]
  | n + 1 => rw [retryCall, h]

/-- A non-retryable error propagates at once, however many tries remain. -/
theorem retryCall_error_not_retryable {α : Type} (retryable : PyErr → Bool) (tries : Nat)
    (run : Nat → Except PyErr α) (i : Nat) (e : PyErr)
    (h : run i = Except.error e) (hr : retryable e = false) :
    retryCall retryable tries run i = Except.error e := by
  match tries with
  | 0 => rw [retryCall, h]
  | n + 1 =>
    rw [retryCall, h]
    simp [hr]

/-- One retryable failure followed by a success yields the success, provided
one try remains. -/
theorem retryCall_retry_success {α : Type} (retryable : PyErr → Bool) (tries : Nat)
    (run : Nat → Except PyErr α) (i : Nat) (e : PyErr) (a : α)
    (h0 : run i = Except.error e) (hr : retryable e = true)
    (h1 : run (i + 1) = Except.ok a) (ht : 1 ≤ tries) :
    retryCall retryable tries run i = Except.ok a := by
  match tries with
  | n + 1 =>
    rw [retryCall, h0]
    simp only [hr, if_true]
    exact retryCall_ok retryable n run (i + 1) a h1

/-- If every attempt fails the same way, the loop terminates with that error
after exhausting its bounded attempts. -/
theorem retryCall_all_error {α : Type} (retryable : PyErr → Bool) (tries : Nat)
    (run : Nat → Except PyErr α) (e : PyErr)
    (h : ∀ i, run i = Except.error e) :
    ∀ i, retryCall retryable tries run i = Except.error e := by
  induction tries with
  | zero =>
    intro i
    rw [retryCall, h i]
  | succ n ih =>
    intro i
    rw [retryCall, h i]
    by_cases hr : retryable e = true
    · simp only [hr, if_true]
      exact ih (i + 1)
    · simp [Bool.not_eq_true] at hr
      simp [hr]

/-- C8: during local digest computation, a first-attempt read failure that is
an OS-level transient error is retried under the bounded-attempts policy and
a subsequent successful read yields the digest; an error that is not an
`OSError` propagates immediately no matter how many tries remain; and when
every attempt keeps failing, the loop stops with that error once the bounded
attempts are spent. -/
theorem get_local_etag_retry_policy (md5 : List Nat → List Nat) (tries : Nat)
    (readAttempt : Nat → Except PyErr (List Nat)) (sz : Nat) :
    (∀ e : PyErr, e.isOSError = false → readAttempt 0 = Except.error e →
      get_local_etag_retried md5 tries readAttempt sz = Except.error e) ∧
    (∀ (e : PyErr) (content : List Nat), e.isOSError = true →
      readAttempt 0 = Except.error e → readAttempt 1 = Except.ok content → 1 ≤ tries →
      get_local_etag_retried md5 tries readAttempt sz =
        Except.ok (get_local_etag md5 content sz)) ∧
    (∀ e : PyErr, (∀ i, readAttempt i = Except.error e) →
      get_local_etag_retried md5 tries readAttempt sz = Except.error e) := by
  refine ⟨?_, ?_, ?_⟩
  · intro e he h0
    exact retryCall_error_not_retryable PyErr.isOSError tries _ 0 e (by rw [h0]; rfl) he
  · intro e content he h0 h1 ht
    exact retryCall_retry_success PyErr.isOSError tries _ 0 e _ (by rw [h0]; rfl) he
      (by rw [h1]; rfl) ht
  · intro e hall
    exact retryCall_all_error PyErr.isOSError tries _ e (fun i => by rw [hall i]; rfl) 0

/-- C8 witness: the first read fails with `OSError` errno 24 (too many open
files), the second succeeds; with three tries configured the digest of the
content read on the second attempt is returned. -/
theorem get_local_etag_retry_policy_witness :
    (PyErr.osError 24).isOSError = true ∧
    (fun i : Nat => if i = 0 then Except.error (PyErr.osError 24) else Except.ok [1, 2, 3]) 0 =
      Except.error (PyErr.osError 24) ∧
    (fun i : Nat => if i = 0 then Except.error (PyErr.osError 24) else Except.ok [1, 2, 3]) 1 =
      Except.ok [1, 2, 3] ∧
    1 ≤ 3 ∧
    get_local_etag_retried testDigest 3
        (fun i : Nat => if i = 0 then Except.error (PyErr.osError 24) else Except.ok [1, 2, 3]) 2 =
      Except.ok (get_local_etag testDigest [1, 2, 3] 2) :=
  ⟨rfl, rfl, rfl, by omega,
    (get_local_etag_retry_policy testDigest 3
        (fun i : Nat => if i = 0 then Except.error (PyErr.osError 24) else Except.ok [1, 2, 3])
        2).2.1 (PyErr.osError 24) [1, 2, 3] rfl rfl rfl (by omega)⟩

end AibsAwsUtils
